import Mathlib

/-
Shallow embedding of the todo-cli terminal application (src/main.rs).

Modelling conventions:
  - Machine integers (usize) are Nat; a usize subtraction that would
    underflow is modelled as a process abort (`none`), matching the
    overflow checks of the default debug profile under which the binary
    panics on underflow.
  - The backing JSON file ./data.json is abstracted to whether it is
    absent, present but unparsable, or present and parsing to a list of
    todos; fs::write of a serialized list yields a file that parses back
    to that list.
  - `none` in the dispatcher models a process abort: a failed .expect
    call or a panic (Vec::remove out of bounds, usize underflow).
  - The rng draw (rand::thread_rng gen_range) and the clock reading
    (Utc::now) are passed in as explicit parameters.
  - Rust String::to_uppercase is modelled by String.toUpper.
-/

namespace TodoCli

/-- Embedding of `struct Todo` (main.rs lines 57-64). The `created_at`
UTC timestamp is abstracted as a natural number. -/
structure Todo where
  id : Nat
  name : String
  category : String
  text : String
  created_at : Nat

deriving instance DecidableEq for Todo

/-- Abstraction of the text held by the backing file: either serde_json
parses it as a Vec of Todo, or it does not. -/
inductive Contents where
  | parses (todos : List Todo)
  | unparsable

deriving instance DecidableEq for Contents

/-- The backing file ./data.json: absent from disk, or present with some
contents. -/
inductive DbFile where
  | absent
  | present (c : Contents)

deriving instance DecidableEq for DbFile

/-- Embedding of `struct InputStates` (main.rs lines 80-84): the three
in-progress input buffers. -/
structure InputStates where
  name : String
  category : String
  text : String

deriving instance DecidableEq for InputStates

/-- Embedding of `enum FocusedInput` (main.rs lines 90-95). -/
inductive FocusedInput where
  | Name
  | Category
  | Text
  | None

deriving instance DecidableEq for FocusedInput

/-- Embedding of `enum Error` (main.rs lines 104-110). -/
inductive Error where
  | ReadDBError
  | ParseDBError

deriving instance DecidableEq for Error

/-- Embedding of `enum MenuItem` (main.rs lines 113-118). -/
inductive MenuItem where
  | Home
  | TODOs
  | Add

deriving instance DecidableEq for MenuItem

/-- The subset of crossterm KeyCode values the dispatcher distinguishes;
`other` stands for every remaining key, handled by the final `_` arm. -/
inductive KeyCode where
  | Char (c : Char)
  | Backspace
  | Enter
  | Esc
  | Down
  | Up
  | Tab
  | other

deriving instance DecidableEq for KeyCode

/-- fs::read_to_string on the backing file: an io::Error when the file is
absent (converted to Error::ReadDBError by the From impl), otherwise the
contents. -/
def fs_read_to_string : DbFile → Except Error Contents
  | DbFile.absent => Except.error Error.ReadDBError
  | DbFile.present c => Except.ok c

/-- serde_json::from_str::<Vec<Todo>> applied to file contents; a parse
failure is converted to Error::ParseDBError by the From impl. -/
def serde_from_str : Contents → Except Error (List Todo)
  | Contents.parses l => Except.ok l
  | Contents.unparsable => Except.error Error.ParseDBError

/-- fs::write of serde_json::to_vec(&list): a whole-file replace whose
written text parses back to the same list. Serializing a Vec<Todo> never
fails. The literal "[]" written by read_db is fs_write []. -/
def fs_write (l : List Todo) : DbFile := DbFile.present (Contents.parses l)

/-- Embedding of `fn read_db` (main.rs lines 377-392). Returns the file
after the call (the read_db body may create a missing file) together with
the returned Result. -/
def read_db (f : DbFile) : DbFile × Except Error (List Todo) :=
  let reading_result := fs_read_to_string f
  let f1 := match reading_result with
    | Except.error _ => fs_write []
    | Except.ok _ => f
  let parsing_result : Except Error (List Todo) :=
    match reading_result with
    | Except.ok contents => serde_from_str contents
    | Except.error _ => Except.ok []
  match parsing_result with
  | Except.ok parsed => (f1, Except.ok parsed)
  | Except.error _ => (f1, Except.ok [])

/-- Rust String::to_uppercase, modelled characterwise (the ASCII case;
equals String.toUpper but defined by structural recursion so the kernel
can evaluate it on literals). -/
def to_uppercase (s : String) : String := String.mk (s.data.map Char.toUpper)

/-- The Todo built by add_todo_from_input_to_db (main.rs lines 401-407):
`idv` stands for the draw rng.gen_range(0, 9999999) and `now` for
Utc::now(). -/
def default_todo (inputs : InputStates) (idv now : Nat) : Todo :=
  { id := idv
    name := inputs.name
    category := to_uppercase inputs.category
    text := inputs.text
    created_at := now }

/-- Embedding of `fn add_todo_from_input_to_db` (main.rs lines 395-413).
Returns the file after the call and the returned Result; the `?` operator
propagates read and parse errors before any write happens. -/
def add_todo_from_input_to_db (inputs : InputStates) (idv now : Nat) (f : DbFile) :
    DbFile × Except Error (List Todo) :=
  match fs_read_to_string f with
  | Except.error e => (f, Except.error e)
  | Except.ok db_content =>
    match serde_from_str db_content with
    | Except.error e => (f, Except.error e)
    | Except.ok parsed =>
      let parsed2 := parsed ++ [default_todo inputs idv now]
      (fs_write parsed2, Except.ok parsed2)

/-- Embedding of `fn remove_todo_at_index` (main.rs lines 416-432). The
outer `none` models the panic of Vec::remove on an out-of-bounds index;
`some (Except.error e)` is the early return of the `?` operator (the
selection and the file are left untouched); on the ok path the result
carries the new selection and the rewritten file. -/
def remove_todo_at_index (sel : Option Nat) (f : DbFile) :
    Option (Except Error (Option Nat × DbFile)) :=
  match sel with
  | Option.none => some (Except.ok (Option.none, f))
  | some selected =>
    match fs_read_to_string f with
    | Except.error e => some (Except.error e)
    | Except.ok db_content =>
      match serde_from_str db_content with
      | Except.error e => some (Except.error e)
      | Except.ok parsed =>
        if selected < parsed.length then
          some (Except.ok
            ((if 1 ≤ selected then some (selected - 1) else Option.none),
             fs_write (parsed.eraseIdx selected)))
        else
          none

/-- The focus rotation of the Tab arm (main.rs lines 611-616). -/
def cycleFocus : FocusedInput → FocusedInput
  | FocusedInput.Name => FocusedInput.Category
  | FocusedInput.Category => FocusedInput.Text
  | FocusedInput.Text => FocusedInput.Name
  | FocusedInput.None => FocusedInput.Name

/-- The mutable state of fn main touched by the dispatcher, together with
the backing file. `todo_list_state` embeds ListState::selected(). -/
structure AppState where
  active_menu_item : MenuItem
  todo_list_state : Option Nat
  inputs : InputStates
  focused_input : FocusedInput
  db : DbFile

deriving instance DecidableEq for AppState

/-- One dispatch of a key event by the main loop (main.rs lines 571-652),
arm for arm. `none` models a process abort: a failed .expect or a panic
(Vec::remove out of bounds; the usize subtraction amount_pets - 1 when
amount_pets = 0, which overflows under the default debug profile - under a
release profile it would wrap and move the cursor instead, which equally
breaks the no-op expectation). The q arm breaks the loop without changing
state. `idv` and `now` supply the rng draw and the clock reading consumed
by the Enter arm. -/
def stepKey (k : KeyCode) (idv now : Nat) (s : AppState) : Option AppState :=
  match k, s.focused_input with
  | KeyCode.Char c, FocusedInput.None =>
      if c = 'q' then
        some s
      else if c = 'h' then
        some { s with active_menu_item := MenuItem.Home }
      else if c = 't' then
        some { s with active_menu_item := MenuItem.TODOs }
      else if c = 'a' then
        some { s with active_menu_item := MenuItem.Add }
      else if c = 'd' then
        match remove_todo_at_index s.todo_list_state s.db with
        | none => none
        | some (Except.error _) => none
        | some (Except.ok (sel2, f2)) =>
            some { s with todo_list_state := sel2, db := f2 }
      else
        some s
  | KeyCode.Down, FocusedInput.None =>
      match s.todo_list_state with
      | Option.none => some s
      | some selected =>
          let rd := read_db s.db
          match rd.2 with
          | Except.error _ => none
          | Except.ok todos =>
              let amount_pets := todos.length
              if amount_pets = 0 then
                none
              else if amount_pets - 1 ≤ selected then
                some { s with db := rd.1, todo_list_state := some 0 }
              else
                some { s with db := rd.1, todo_list_state := some (selected + 1) }
  | KeyCode.Up, FocusedInput.None =>
      match s.todo_list_state with
      | Option.none => some s
      | some selected =>
          let rd := read_db s.db
          match rd.2 with
          | Except.error _ => none
          | Except.ok todos =>
              let amount_pets := todos.length
              if 0 < selected then
                some { s with db := rd.1, todo_list_state := some (selected - 1) }
              else if amount_pets = 0 then
                none
              else
                some { s with db := rd.1, todo_list_state := some (amount_pets - 1) }
  | KeyCode.Tab, _ =>
      if s.active_menu_item = MenuItem.Add then
        some { s with focused_input := cycleFocus s.focused_input }
      else
        some s
  | KeyCode.Char c, FocusedInput.Name =>
      some { s with inputs := { s.inputs with name := s.inputs.name.push c } }
  | KeyCode.Char c, FocusedInput.Category =>
      some { s with inputs := { s.inputs with category := s.inputs.category.push c } }
  | KeyCode.Char c, FocusedInput.Text =>
      some { s with inputs := { s.inputs with text := s.inputs.text.push c } }
  | KeyCode.Backspace, FocusedInput.None => some s
  | KeyCode.Backspace, FocusedInput.Name =>
      some { s with inputs := { s.inputs with name := s.inputs.name.dropRight 1 } }
  | KeyCode.Backspace, FocusedInput.Category =>
      some { s with inputs := { s.inputs with category := s.inputs.category.dropRight 1 } }
  | KeyCode.Backspace, FocusedInput.Text =>
      some { s with inputs := { s.inputs with text := s.inputs.text.dropRight 1 } }
  | KeyCode.Esc, FocusedInput.None => some s
  | KeyCode.Esc, _ =>
      some { s with focused_input := FocusedInput.None }
  | KeyCode.Enter, _ =>
      if s.active_menu_item = MenuItem.Add then
        match add_todo_from_input_to_db s.inputs idv now s.db with
        | (_, Except.error _) => none
        | (f2, Except.ok _) =>
            some { s with db := f2
                          focused_input := FocusedInput.None
                          inputs := { name := "", category := "", text := "" } }
      else
        some s
  | _, _ => some s

/-- Every loop iteration draws before receiving the next event; drawing
the TODOs tab calls read_db (which may create a missing file), the other
tabs touch neither state nor file (main.rs lines 489-569). -/
def render_frame (s : AppState) : AppState :=
  match s.active_menu_item with
  | MenuItem.TODOs => { s with db := (read_db s.db).1 }
  | _ => s

/-- The state set up in fn main before the loop (main.rs lines 474-485):
Home tab, selection Some 0, empty buffers, no focus; `f` is whatever the
backing file holds on disk at startup. -/
def initialState (f : DbFile) : AppState :=
  { active_menu_item := MenuItem.Home
    todo_list_state := some 0
    inputs := { name := "", category := "", text := "" }
    focused_input := FocusedInput.None
    db := f }

/-- n successive presses of the same key, aborting as soon as one press
aborts. Down, Up and Tab ignore the rng and clock arguments. -/
def iterStep (k : KeyCode) : Nat → AppState → Option AppState
  | 0, s => some s
  | n + 1, s => (stepKey k 0 0 s).bind (iterStep k n)

/-- The application states of a run: the start state, closed under drawing
a frame and dispatching a key event. Tick events leave the state unchanged
and are therefore not listed. -/
inductive Reachable : AppState → Prop where
  | init (f : DbFile) : Reachable (initialState f)
  | render (s : AppState) : Reachable s → Reachable (render_frame s)
  | key (s : AppState) (k : KeyCode) (idv now : Nat) (s2 : AppState) :
      Reachable s → stepKey k idv now s = some s2 → Reachable s2

/-- Sample todo used in concrete witness states. -/
def sample_todo (n : Nat) : Todo :=
  { id := n, name := "n", category := "C", text := "t", created_at := 0 }

-- Computation lemmas for the store operations, shared by the proofs below.

@[simp]
lemma read_db_absent : read_db DbFile.absent = (fs_write [], Except.ok []) := rfl

@[simp]
lemma read_db_unparsable :
    read_db (DbFile.present Contents.unparsable) =
      (DbFile.present Contents.unparsable, Except.ok []) := rfl

@[simp]
lemma read_db_parses (l : List Todo) :
    read_db (DbFile.present (Contents.parses l)) =
      (DbFile.present (Contents.parses l), Except.ok l) := rfl

@[simp]
lemma add_todo_absent (inp : InputStates) (idv now : Nat) :
    add_todo_from_input_to_db inp idv now DbFile.absent =
      (DbFile.absent, Except.error Error.ReadDBError) := rfl

@[simp]
lemma add_todo_unparsable (inp : InputStates) (idv now : Nat) :
    add_todo_from_input_to_db inp idv now (DbFile.present Contents.unparsable) =
      (DbFile.present Contents.unparsable, Except.error Error.ParseDBError) := rfl

@[simp]
lemma add_todo_parses (inp : InputStates) (idv now : Nat) (l : List Todo) :
    add_todo_from_input_to_db inp idv now (DbFile.present (Contents.parses l)) =
      (fs_write (l ++ [default_todo inp idv now]),
       Except.ok (l ++ [default_todo inp idv now])) := rfl

@[simp]
lemma remove_none (f : DbFile) :
    remove_todo_at_index Option.none f = some (Except.ok (Option.none, f)) := rfl

@[simp]
lemma remove_some_absent (i : Nat) :
    remove_todo_at_index (some i) DbFile.absent =
      some (Except.error Error.ReadDBError) := rfl

@[simp]
lemma remove_some_unparsable (i : Nat) :
    remove_todo_at_index (some i) (DbFile.present Contents.unparsable) =
      some (Except.error Error.ParseDBError) := rfl

lemma remove_some_parses (i : Nat) (l : List Todo) :
    remove_todo_at_index (some i) (DbFile.present (Contents.parses l)) =
      if i < l.length then
        some (Except.ok
          ((if 1 ≤ i then some (i - 1) else Option.none),
           fs_write (l.eraseIdx i)))
      else none := rfl

/-- Claim C7: load never surfaces an error. An absent file is replaced by
one holding the empty JSON array and the empty list is returned; a file
that exists but does not parse is left untouched and the empty list is
returned; a parsable file is left untouched and its list is returned. -/
theorem c7_read_db_total :
    (∀ f : DbFile, ∃ l : List Todo, (read_db f).2 = Except.ok l) ∧
    read_db DbFile.absent = (fs_write [], Except.ok []) ∧
    read_db (DbFile.present Contents.unparsable) =
      (DbFile.present Contents.unparsable, Except.ok []) ∧
    (∀ l : List Todo, read_db (DbFile.present (Contents.parses l)) =
      (DbFile.present (Contents.parses l), Except.ok l)) := by
  refine ⟨?_, rfl, rfl, fun l => rfl⟩
  intro f
  cases f with
  | absent => exact ⟨[], rfl⟩
  | present c =>
    cases c with
    | parses l => exact ⟨l, rfl⟩
    | unparsable => exact ⟨[], rfl⟩

/-- Claim C8: append surfaces an error exactly when the backing file is
absent or unparsable, leaving the file unchanged in those cases because
the write is only reached after a successful read and parse; on success it
rewrites the file to the old list with the new todo appended at the end
and returns the updated list, which is one element longer. -/
theorem c8_append_strict :
    (∀ (inp : InputStates) (idv now : Nat),
      add_todo_from_input_to_db inp idv now DbFile.absent =
        (DbFile.absent, Except.error Error.ReadDBError)) ∧
    (∀ (inp : InputStates) (idv now : Nat),
      add_todo_from_input_to_db inp idv now (DbFile.present Contents.unparsable) =
        (DbFile.present Contents.unparsable, Except.error Error.ParseDBError)) ∧
    (∀ (inp : InputStates) (idv now : Nat) (l : List Todo),
      add_todo_from_input_to_db inp idv now (DbFile.present (Contents.parses l)) =
        (fs_write (l ++ [default_todo inp idv now]),
         Except.ok (l ++ [default_todo inp idv now])) ∧
      (l ++ [default_todo inp idv now]).length = l.length + 1) := by
  refine ⟨fun inp idv now => rfl, fun inp idv now => rfl, fun inp idv now l => ⟨rfl, ?_⟩⟩
  simp

/-- Claim C9: pressing d in navigation mode with an in-range selection
Some i rewrites the store to the list with exactly the element at index i
removed (the prefix before i and the suffix after i are preserved in
order, so the length drops by one) and moves the cursor to Some (i-1)
when 0 < i and to None when i = 0. -/
theorem c9_delete_at_cursor (s : AppState) (l : List Todo) (i : Nat)
    (hdb : s.db = DbFile.present (Contents.parses l))
    (hfocus : s.focused_input = FocusedInput.None)
    (hsel : s.todo_list_state = some i)
    (hi : i < l.length) :
    stepKey (KeyCode.Char 'd') 0 0 s =
      some { s with db := fs_write (l.eraseIdx i)
                    todo_list_state := if 1 ≤ i then some (i - 1) else Option.none } ∧
    l.eraseIdx i = l.take i ++ l.drop (i + 1) ∧
    (l.eraseIdx i).length + 1 = l.length := by
  obtain ⟨tab, sel, inp, foc, db⟩ := s
  simp only at hdb hfocus hsel
  subst hdb hfocus hsel
  refine ⟨?_, List.eraseIdx_eq_take_drop_succ l i, List.length_eraseIdx_add_one hi⟩
  simp [stepKey, remove_some_parses, hi]

/-- Witness for C9 at a concrete two-element store with the cursor on
index 1. -/
theorem c9_witness :
    (1 < ([sample_todo 1, sample_todo 2] : List Todo).length) ∧
    stepKey (KeyCode.Char 'd') 0 0
      { active_menu_item := MenuItem.TODOs
        todo_list_state := some 1
        inputs := { name := "", category := "", text := "" }
        focused_input := FocusedInput.None
        db := DbFile.present (Contents.parses [sample_todo 1, sample_todo 2]) } =
      some { active_menu_item := MenuItem.TODOs
             todo_list_state := some 0
             inputs := { name := "", category := "", text := "" }
             focused_input := FocusedInput.None
             db := DbFile.present (Contents.parses [sample_todo 1]) } := by
  refine ⟨by decide, ?_⟩
  have h := c9_delete_at_cursor
    { active_menu_item := MenuItem.TODOs
      todo_list_state := some 1
      inputs := { name := "", category := "", text := "" }
      focused_input := FocusedInput.None
      db := DbFile.present (Contents.parses [sample_todo 1, sample_todo 2]) }
    [sample_todo 1, sample_todo 2] 1 rfl rfl rfl (by decide)
  simpa [fs_write, List.eraseIdx] using h.1

/-- The reachable state used to refute claim C1: fresh start with no
data.json on disk, then press a to open the Add tab. -/
def c1_state : AppState :=
  { initialState DbFile.absent with active_menu_item := MenuItem.Add }

/-- Claim C1, counterexample: in the reachable Add-tab state with an
absent backing file, Enter aborts the process (the expect on
add_todo_from_input_to_db fails), so no item is appended, the buffers are
not cleared, and a load would still return the empty list - not the
pre-submit length + 1 the claim asserts for every Add-tab state. -/
theorem c1_counterexample :
    Reachable c1_state ∧
    c1_state.active_menu_item = MenuItem.Add ∧
    stepKey KeyCode.Enter 0 0 c1_state = none ∧
    (read_db c1_state.db).2 = Except.ok ([] : List Todo) := by
  refine ⟨Reachable.key (initialState DbFile.absent) (KeyCode.Char 'a') 0 0
    c1_state (Reachable.init DbFile.absent) (by decide), rfl, by decide, rfl⟩

/-- Claim C1 (amended): in every Add-tab state whose backing file exists
and parses, Enter appends exactly one item - the todo built from the three
buffers with the category uppercased - so a subsequent load returns the
old list plus that item (length + 1); the three buffers are cleared and
the focus is reset to None. -/
theorem c1_enter_on_add_appends (s : AppState) (idv now : Nat) (l : List Todo)
    (htab : s.active_menu_item = MenuItem.Add)
    (hdb : s.db = DbFile.present (Contents.parses l)) :
    stepKey KeyCode.Enter idv now s =
      some { s with db := fs_write (l ++ [default_todo s.inputs idv now])
                    focused_input := FocusedInput.None
                    inputs := { name := "", category := "", text := "" } } ∧
    (read_db (fs_write (l ++ [default_todo s.inputs idv now]))).2 =
      Except.ok (l ++ [default_todo s.inputs idv now]) ∧
    (l ++ [default_todo s.inputs idv now]).length = l.length + 1 ∧
    (default_todo s.inputs idv now).category = to_uppercase s.inputs.category := by
  obtain ⟨tab, sel, inp, foc, db⟩ := s
  simp only at htab hdb
  subst htab hdb
  refine ⟨?_, rfl, by simp, rfl⟩
  cases foc <;> simp [stepKey]

/-- Witness for C1 at the concrete scenario of the spec: Add tab, buffers
Milk / shopping / buy milk, empty parsable store. -/
theorem c1_witness :
    (stepKey KeyCode.Enter 7 9
      { active_menu_item := MenuItem.Add
        todo_list_state := some 0
        inputs := { name := "Milk", category := "shopping", text := "buy milk" }
        focused_input := FocusedInput.None
        db := DbFile.present (Contents.parses []) } =
      some { active_menu_item := MenuItem.Add
             todo_list_state := some 0
             inputs := { name := "", category := "", text := "" }
             focused_input := FocusedInput.None
             db := fs_write [default_todo
               { name := "Milk", category := "shopping", text := "buy milk" } 7 9] }) ∧
    (default_todo { name := "Milk", category := "shopping", text := "buy milk" } 7 9).category =
      "SHOPPING" := by
  have h := c1_enter_on_add_appends
    { active_menu_item := MenuItem.Add
      todo_list_state := some 0
      inputs := { name := "Milk", category := "shopping", text := "buy milk" }
      focused_input := FocusedInput.None
      db := DbFile.present (Contents.parses []) } 7 9 [] rfl rfl
  exact ⟨h.1, by decide⟩

/-- States used to refute claim C2: the start state on the Home tab, and
the same state on the Add tab. -/
def c2_home_state : AppState := initialState DbFile.absent

/-- The Add-tab variant of the start state, for the second half of the C2
counterexample. -/
def c2_add_state : AppState :=
  { initialState DbFile.absent with active_menu_item := MenuItem.Add }

/-- Claim C2, counterexample: on the Home tab a Tab press leaves the focus
at None instead of advancing it to Name, and on the Add tab four Tab
presses starting from None end at Name, not back at None (the cycle
re-enters at Name, never at None). Both halves contradict the claim. -/
theorem c2_counterexample :
    stepKey KeyCode.Tab 0 0 c2_home_state = some c2_home_state ∧
    c2_home_state.focused_input = FocusedInput.None ∧
    iterStep KeyCode.Tab 4 c2_add_state =
      some { c2_add_state with focused_input := FocusedInput.Name } ∧
    decide (FocusedInput.Name = FocusedInput.None) = false := by
  exact ⟨by decide, rfl, by decide, rfl⟩

/-- Claim C2 (amended): Tab rotates the focus through cycleFocus only when
the Add tab is active and leaves the state unchanged on the other tabs;
the rotation always lands on a field (Name, Category or Text), never back
on None, and four presses on the Add tab starting from None end at Name. -/
theorem c2_tab_cycles_only_on_add :
    (∀ (s : AppState) (idv now : Nat),
      stepKey KeyCode.Tab idv now s =
        some (if s.active_menu_item = MenuItem.Add then
                { s with focused_input := cycleFocus s.focused_input }
              else s)) ∧
    (∀ fi : FocusedInput,
      cycleFocus fi = FocusedInput.Name ∨ cycleFocus fi = FocusedInput.Category ∨
        cycleFocus fi = FocusedInput.Text) ∧
    cycleFocus (cycleFocus (cycleFocus (cycleFocus FocusedInput.None))) =
      FocusedInput.Name := by
  refine ⟨?_, ?_, rfl⟩
  · intro s idv now
    obtain ⟨tab, sel, inp, foc, db⟩ := s
    cases foc <;> cases tab <;> simp [stepKey]
  · intro fi
    cases fi <;> simp [cycleFocus]

/-- The reachable state used to refute claim C10: fresh start with no
data.json, press a, type one character of a name is not even needed - the
bare Add-tab state already aborts on Enter. -/
def c10_state : AppState :=
  { initialState DbFile.absent with active_menu_item := MenuItem.Add }

/-- Claim C10, counterexample: in the reachable Add-tab state with
FocusState None and an absent backing file, Enter aborts instead of
appending the item built from the buffers and clearing them. -/
theorem c10_counterexample :
    Reachable c10_state ∧
    c10_state.active_menu_item = MenuItem.Add ∧
    c10_state.focused_input = FocusedInput.None ∧
    stepKey KeyCode.Enter 0 0 c10_state = none := by
  refine ⟨Reachable.key (initialState DbFile.absent) (KeyCode.Char 'a') 0 0
    c10_state (Reachable.init DbFile.absent) (by decide), rfl, rfl, by decide⟩

/-- Claim C10 (amended): on the Add tab the Enter arm is independent of
the focus - replacing the focus by any value yields the same outcome - and
when no field is focused and the backing file parses, the submit happens
exactly as when a field is focused: the todo built from the buffers is
appended, the buffers are cleared and the focus is reset to None. -/
theorem c10_enter_ignores_focus (s : AppState) (idv now : Nat)
    (htab : s.active_menu_item = MenuItem.Add)
    (hfocus : s.focused_input = FocusedInput.None) :
    (∀ fi : FocusedInput,
      stepKey KeyCode.Enter idv now { s with focused_input := fi } =
        stepKey KeyCode.Enter idv now s) ∧
    (∀ l : List Todo, s.db = DbFile.present (Contents.parses l) →
      stepKey KeyCode.Enter idv now s =
        some { s with db := fs_write (l ++ [default_todo s.inputs idv now])
                      focused_input := FocusedInput.None
                      inputs := { name := "", category := "", text := "" } }) := by
  obtain ⟨tab, sel, inp, foc, db⟩ := s
  simp only at htab hfocus
  subst htab hfocus
  constructor
  · intro fi
    cases db with
    | absent => cases fi <;> simp [stepKey]
    | present c =>
      cases c with
      | parses l => cases fi <;> simp [stepKey]
      | unparsable => cases fi <;> simp [stepKey]
  · intro l hdb
    simp only at hdb
    subst hdb
    simp [stepKey]

/-- Witness for C10: concrete Add-tab state with an unfocused buffer set
and an empty parsable store; Enter submits just as if a field were
focused. -/
theorem c10_witness :
    stepKey KeyCode.Enter 3 4
      { active_menu_item := MenuItem.Add
        todo_list_state := some 0
        inputs := { name := "a", category := "b", text := "c" }
        focused_input := FocusedInput.None
        db := DbFile.present (Contents.parses []) } =
      some { active_menu_item := MenuItem.Add
             todo_list_state := some 0
             inputs := { name := "", category := "", text := "" }
             focused_input := FocusedInput.None
             db := fs_write [default_todo { name := "a", category := "b", text := "c" } 3 4] } := by
  have h := c10_enter_ignores_focus
    { active_menu_item := MenuItem.Add
      todo_list_state := some 0
      inputs := { name := "a", category := "b", text := "c" }
      focused_input := FocusedInput.None
      db := DbFile.present (Contents.parses []) } 3 4 rfl rfl
  simpa using h.2 [] rfl

/-- The failing state for claim C4: program start with a backing file
holding the empty array, so the stored list is empty while the selection
is still the startup Some 0. -/
def c4_state : AppState := initialState (DbFile.present (Contents.parses []))

/-- Claim C4 (code bug): at the reachable startup state with an empty
stored list, Down and Up both abort the process instead of being no-ops:
the handler runs with selection Some 0, reads a list of length 0, and the
usize subtraction amount_pets - 1 overflows (debug profile; a release
build would wrap and move the cursor, equally breaking the no-op claim). -/
theorem c4_down_up_abort_on_empty :
    Reachable c4_state ∧
    c4_state.db = DbFile.present (Contents.parses []) ∧
    stepKey KeyCode.Down 0 0 c4_state = none ∧
    stepKey KeyCode.Up 0 0 c4_state = none :=
  ⟨Reachable.init (DbFile.present (Contents.parses [])), rfl, by decide, by decide⟩

/-- The failing state for claim C5: same startup state with an empty
parsed store, where the dispatcher's guard (selection is Some) holds but
the index 0 is out of bounds. -/
def c5_state : AppState := initialState (DbFile.present (Contents.parses []))

/-- Claim C5 (code bug): from the reachable startup state with an empty
stored list the dispatcher invokes the remove operation on d with
SelectionCursor Some 0 - its only guard - yet index 0 is out of bounds of
the empty list, so the out-of-bounds branch of remove_todo_at_index (the
Vec::remove panic) is reached. -/
theorem c5_remove_out_of_bounds_reached :
    Reachable c5_state ∧
    c5_state.todo_list_state = some 0 ∧
    remove_todo_at_index c5_state.todo_list_state c5_state.db = none ∧
    stepKey (KeyCode.Char 'd') 0 0 c5_state = none :=
  ⟨Reachable.init (DbFile.present (Contents.parses [])), rfl, rfl, by decide⟩

-- Wrap-around lemmas for the Down and Up handlers (claim C6).

lemma stepKey_down_eq (s : AppState) (l : List Todo) (j : Nat)
    (hdb : s.db = DbFile.present (Contents.parses l))
    (hfocus : s.focused_input = FocusedInput.None)
    (hsel : s.todo_list_state = some j)
    (hj : j < l.length) :
    stepKey KeyCode.Down 0 0 s =
      some { s with todo_list_state := some ((j + 1) % l.length) } := by
  obtain ⟨tab, sel, inp, foc, db⟩ := s
  simp only at hdb hfocus hsel
  subst hdb hfocus hsel
  have hL0 : ¬ (l.length = 0) := by omega
  by_cases hedge : l.length - 1 ≤ j
  · have hm : (j + 1) % l.length = 0 := by
      have h1 : j + 1 = l.length := by omega
      rw [h1, Nat.mod_self]
    simp [stepKey, hL0, hedge, hm]
  · have hm : (j + 1) % l.length = j + 1 := Nat.mod_eq_of_lt (by omega)
    simp [stepKey, hL0, hedge, hm]

lemma stepKey_up_eq (s : AppState) (l : List Todo) (j : Nat)
    (hdb : s.db = DbFile.present (Contents.parses l))
    (hfocus : s.focused_input = FocusedInput.None)
    (hsel : s.todo_list_state = some j)
    (hj : j < l.length) :
    stepKey KeyCode.Up 0 0 s =
      some { s with todo_list_state := some ((j + (l.length - 1)) % l.length) } := by
  obtain ⟨tab, sel, inp, foc, db⟩ := s
  simp only at hdb hfocus hsel
  subst hdb hfocus hsel
  by_cases hpos : 0 < j
  · have hm : (j + (l.length - 1)) % l.length = j - 1 := by
      have h1 : j + (l.length - 1) = (j - 1) + 1 * l.length := by omega
      rw [h1, Nat.add_mul_mod_self_right]
      exact Nat.mod_eq_of_lt (by omega)
    simp [stepKey, hpos, hm]
  · have hj0 : j = 0 := by omega
    subst hj0
    have hL0 : ¬ (l.length = 0) := by omega
    have hm : (0 + (l.length - 1)) % l.length = l.length - 1 := by
      rw [Nat.zero_add]
      exact Nat.mod_eq_of_lt (by omega)
    simp [stepKey, hL0, hm]

lemma iterStep_down (n : Nat) : ∀ (s : AppState) (l : List Todo) (j : Nat),
    s.db = DbFile.present (Contents.parses l) →
    s.focused_input = FocusedInput.None →
    s.todo_list_state = some j →
    j < l.length →
    iterStep KeyCode.Down n s =
      some { s with todo_list_state := some ((j + n) % l.length) } := by
  induction n with
  | zero =>
    intro s l j hdb hfocus hsel hj
    obtain ⟨tab, sel, inp, foc, db⟩ := s
    simp only at hsel
    subst hsel
    simp [iterStep, Nat.mod_eq_of_lt hj]
  | succ n ih =>
    intro s l j hdb hfocus hsel hj
    have hstep := stepKey_down_eq s l j hdb hfocus hsel hj
    have hlt : (j + 1) % l.length < l.length :=
      Nat.mod_lt _ (Nat.lt_of_le_of_lt (Nat.zero_le j) hj)
    have hnext := ih { s with todo_list_state := some ((j + 1) % l.length) } l
      ((j + 1) % l.length) (by simpa using hdb) (by simpa using hfocus) rfl hlt
    have harith : ((j + 1) % l.length + n) % l.length = (j + (n + 1)) % l.length := by
      rw [Nat.mod_add_mod]
      congr 1
      omega
    calc iterStep KeyCode.Down (n + 1) s
        = (stepKey KeyCode.Down 0 0 s).bind (iterStep KeyCode.Down n) := rfl
      _ = iterStep KeyCode.Down n { s with todo_list_state := some ((j + 1) % l.length) } := by
          rw [hstep]; rfl
      _ = some { s with todo_list_state := some ((j + (n + 1)) % l.length) } := by
          rw [hnext]
          simp [harith]

lemma iterStep_up (n : Nat) : ∀ (s : AppState) (l : List Todo) (j : Nat),
    s.db = DbFile.present (Contents.parses l) →
    s.focused_input = FocusedInput.None →
    s.todo_list_state = some j →
    j < l.length →
    iterStep KeyCode.Up n s =
      some { s with todo_list_state := some ((j + n * (l.length - 1)) % l.length) } := by
  induction n with
  | zero =>
    intro s l j hdb hfocus hsel hj
    obtain ⟨tab, sel, inp, foc, db⟩ := s
    simp only at hsel
    subst hsel
    simp [iterStep, Nat.mod_eq_of_lt hj]
  | succ n ih =>
    intro s l j hdb hfocus hsel hj
    have hstep := stepKey_up_eq s l j hdb hfocus hsel hj
    have hlt : (j + (l.length - 1)) % l.length < l.length :=
      Nat.mod_lt _ (Nat.lt_of_le_of_lt (Nat.zero_le j) hj)
    have hnext := ih { s with todo_list_state := some ((j + (l.length - 1)) % l.length) } l
      ((j + (l.length - 1)) % l.length) (by simpa using hdb) (by simpa using hfocus) rfl hlt
    have harith : ((j + (l.length - 1)) % l.length + n * (l.length - 1)) % l.length =
        (j + (n + 1) * (l.length - 1)) % l.length := by
      rw [Nat.mod_add_mod]
      congr 1
      ring
    calc iterStep KeyCode.Up (n + 1) s
        = (stepKey KeyCode.Up 0 0 s).bind (iterStep KeyCode.Up n) := rfl
      _ = iterStep KeyCode.Up n { s with todo_list_state := some ((j + (l.length - 1)) % l.length) } := by
          rw [hstep]; rfl
      _ = some { s with todo_list_state := some ((j + (n + 1) * (l.length - 1)) % l.length) } := by
          rw [hnext]
          simp [harith]

/-- Claim C6: with the stored list unchanged in between, pressing Down
exactly len times from an in-range cursor Some i returns the state - in
particular the cursor - to its starting value, and the same holds for
pressing Up exactly len times. -/
theorem c6_down_up_wrap (s : AppState) (l : List Todo) (idx : Nat)
    (hdb : s.db = DbFile.present (Contents.parses l))
    (hfocus : s.focused_input = FocusedInput.None)
    (hsel : s.todo_list_state = some idx)
    (hidx : idx < l.length) :
    iterStep KeyCode.Down l.length s = some s ∧
    iterStep KeyCode.Up l.length s = some s := by
  have hL : 0 < l.length := Nat.lt_of_le_of_lt (Nat.zero_le idx) hidx
  have hdown := iterStep_down l.length s l idx hdb hfocus hsel hidx
  have hup := iterStep_up l.length s l idx hdb hfocus hsel hidx
  have hid : { s with todo_list_state := some idx } = s := by
    obtain ⟨tab, sel, inp, foc, db⟩ := s
    simp only at hsel
    subst hsel
    rfl
  constructor
  · rw [hdown]
    have : (idx + l.length) % l.length = idx := by
      rw [Nat.add_mod_right, Nat.mod_eq_of_lt hidx]
    rw [this, hid]
  · rw [hup]
    have : (idx + l.length * (l.length - 1)) % l.length = idx := by
      rw [Nat.mul_comm, Nat.add_mul_mod_self_right, Nat.mod_eq_of_lt hidx]
    rw [this, hid]

/-- Witness for C6 on a concrete three-element store with the cursor on
index 1: three Down presses and three Up presses each return the state to
the start. -/
theorem c6_witness :
    iterStep KeyCode.Down 3
      { active_menu_item := MenuItem.TODOs
        todo_list_state := some 1
        inputs := { name := "", category := "", text := "" }
        focused_input := FocusedInput.None
        db := DbFile.present (Contents.parses [sample_todo 1, sample_todo 2, sample_todo 3]) } =
      some { active_menu_item := MenuItem.TODOs
             todo_list_state := some 1
             inputs := { name := "", category := "", text := "" }
             focused_input := FocusedInput.None
             db := DbFile.present (Contents.parses [sample_todo 1, sample_todo 2, sample_todo 3]) } ∧
    iterStep KeyCode.Up 3
      { active_menu_item := MenuItem.TODOs
        todo_list_state := some 1
        inputs := { name := "", category := "", text := "" }
        focused_input := FocusedInput.None
        db := DbFile.present (Contents.parses [sample_todo 1, sample_todo 2, sample_todo 3]) } =
      some { active_menu_item := MenuItem.TODOs
             todo_list_state := some 1
             inputs := { name := "", category := "", text := "" }
             focused_input := FocusedInput.None
             db := DbFile.present (Contents.parses [sample_todo 1, sample_todo 2, sample_todo 3]) } :=
  c6_down_up_wrap
    { active_menu_item := MenuItem.TODOs
      todo_list_state := some 1
      inputs := { name := "", category := "", text := "" }
      focused_input := FocusedInput.None
      db := DbFile.present (Contents.parses [sample_todo 1, sample_todo 2, sample_todo 3]) }
    [sample_todo 1, sample_todo 2, sample_todo 3] 1 rfl rfl rfl (by decide)

-- Reachability invariant behind claim C3.

/-- Whenever the stored list is empty - the backing file parses to the
empty list or is absent - the selection is either cleared or still the
startup value Some 0. This is the provable weakening of claim C3. -/
def SelInv (s : AppState) : Prop :=
  (s.db = DbFile.present (Contents.parses []) ∨ s.db = DbFile.absent) →
    s.todo_list_state = Option.none ∨ s.todo_list_state = some 0

lemma stepKey_tab_eq (s : AppState) (idv now : Nat) :
    stepKey KeyCode.Tab idv now s =
      some (if s.active_menu_item = MenuItem.Add then
              { s with focused_input := cycleFocus s.focused_input }
            else s) := by
  obtain ⟨tab, sel, inp, foc, db⟩ := s
  cases foc <;> cases tab <;> simp [stepKey]

lemma selInv_of_parses {tab : MenuItem} {inp : InputStates} {foc : FocusedInput}
    {l : List Todo} (hL : ¬ l.length = 0) (selv : Option Nat) :
    SelInv { active_menu_item := tab, todo_list_state := selv, inputs := inp,
             focused_input := foc, db := DbFile.present (Contents.parses l) } := by
  intro hd
  rcases hd with hd | hd
  · have hl : l = [] := by simpa using hd
    rw [hl] at hL
    exact absurd rfl hL
  · exact absurd hd (by simp)

lemma selInv_render {s : AppState} (h : SelInv s) : SelInv (render_frame s) := by
  obtain ⟨tab, sel, inp, foc, db⟩ := s
  cases tab with
  | Home => exact h
  | Add => exact h
  | TODOs =>
    cases db with
    | absent => exact fun _ => h (Or.inr rfl)
    | present c =>
      cases c with
      | parses l => exact h
      | unparsable => exact fun hd => h hd

lemma selInv_step {k : KeyCode} {idv now : Nat} {s s2 : AppState}
    (h : SelInv s) (hstep : stepKey k idv now s = some s2) : SelInv s2 := by
  obtain ⟨tab, sel, inp, foc, db⟩ := s
  cases k with
  | Char c =>
    cases foc with
    | Name =>
      simp [stepKey] at hstep
      subst hstep
      exact fun hd => h hd
    | Category =>
      simp [stepKey] at hstep
      subst hstep
      exact fun hd => h hd
    | Text =>
      simp [stepKey] at hstep
      subst hstep
      exact fun hd => h hd
    | None =>
      simp only [stepKey] at hstep
      split_ifs at hstep
      case pos =>
        injection hstep with h2
        subst h2
        exact fun hd => h hd
      case pos =>
        injection hstep with h2
        subst h2
        exact fun hd => h hd
      case pos =>
        injection hstep with h2
        subst h2
        exact fun hd => h hd
      case pos =>
        injection hstep with h2
        subst h2
        exact fun hd => h hd
      case neg =>
        injection hstep with h2
        subst h2
        exact fun hd => h hd
      case pos =>
        -- the d arm: dispatch of remove_todo_at_index
        cases sel with
        | none =>
          rw [remove_none] at hstep
          simp at hstep
          subst hstep
          exact fun _ => Or.inl rfl
        | some i =>
          cases db with
          | absent =>
            rw [remove_some_absent] at hstep
            simp at hstep
          | present co =>
            cases co with
            | unparsable =>
              rw [remove_some_unparsable] at hstep
              simp at hstep
            | parses l =>
              rw [remove_some_parses] at hstep
              by_cases hi : i < l.length
              · rw [if_pos hi] at hstep
                simp at hstep
                subst hstep
                intro hd
                rcases hd with hd | hd
                · have hnil : l.eraseIdx i = [] := by simpa [fs_write] using hd
                  have hlen := List.length_eraseIdx_add_one hi
                  rw [hnil] at hlen
                  simp at hlen
                  have hi0 : i = 0 := by omega
                  subst hi0
                  simp
                · exact absurd hd (by simp [fs_write])
              · rw [if_neg hi] at hstep
                simp at hstep
  | Down =>
    cases foc with
    | Name =>
      simp [stepKey] at hstep
      subst hstep
      exact fun hd => h hd
    | Category =>
      simp [stepKey] at hstep
      subst hstep
      exact fun hd => h hd
    | Text =>
      simp [stepKey] at hstep
      subst hstep
      exact fun hd => h hd
    | None =>
      cases sel with
      | none =>
        simp [stepKey] at hstep
        subst hstep
        exact fun hd => h hd
      | some j =>
        cases db with
        | absent => simp [stepKey] at hstep
        | present co =>
          cases co with
          | unparsable => simp [stepKey] at hstep
          | parses l =>
            by_cases hL : l.length = 0
            · simp [stepKey, hL] at hstep
            · by_cases hedge : l.length - 1 ≤ j
              · simp [stepKey, hL, hedge] at hstep
                subst hstep
                exact selInv_of_parses hL _
              · simp [stepKey, hL, hedge] at hstep
                subst hstep
                exact selInv_of_parses hL _
  | Up =>
    cases foc with
    | Name =>
      simp [stepKey] at hstep
      subst hstep
      exact fun hd => h hd
    | Category =>
      simp [stepKey] at hstep
      subst hstep
      exact fun hd => h hd
    | Text =>
      simp [stepKey] at hstep
      subst hstep
      exact fun hd => h hd
    | None =>
      cases sel with
      | none =>
        simp [stepKey] at hstep
        subst hstep
        exact fun hd => h hd
      | some j =>
        cases db with
        | absent =>
          rcases h (Or.inr rfl) with hc | hc
          · exact absurd hc (by simp)
          · have hj0 : j = 0 := by simpa using hc
            subst hj0
            simp [stepKey] at hstep
        | present co =>
          cases co with
          | unparsable =>
            by_cases hpos : 0 < j
            · simp [stepKey, hpos] at hstep
              subst hstep
              intro hd
              rcases hd with hd | hd <;> exact absurd hd (by simp)
            · simp [stepKey, hpos] at hstep
          | parses l =>
            by_cases hpos : 0 < j
            · by_cases hL : l.length = 0
              · have hl : l = [] := by simpa using (List.length_eq_zero.mp hL)
                subst hl
                rcases h (Or.inl rfl) with hc | hc
                · exact absurd hc (by simp)
                · have : j = 0 := by simpa using hc
                  omega
              · simp [stepKey, hpos] at hstep
                subst hstep
                exact selInv_of_parses hL _
            · by_cases hL : l.length = 0
              · simp [stepKey, hpos, hL] at hstep
              · simp [stepKey, hpos, hL] at hstep
                subst hstep
                exact selInv_of_parses hL _
  | Tab =>
    rw [stepKey_tab_eq] at hstep
    injection hstep with h2
    subst h2
    dsimp only
    by_cases htab : tab = MenuItem.Add
    · rw [if_pos htab]
      exact fun hd => h hd
    · rw [if_neg htab]
      exact fun hd => h hd
  | Backspace =>
    cases foc <;> simp [stepKey] at hstep <;> subst hstep <;> exact fun hd => h hd
  | Esc =>
    cases foc <;> simp [stepKey] at hstep <;> subst hstep <;> exact fun hd => h hd
  | Enter =>
    by_cases htab : tab = MenuItem.Add
    · subst htab
      cases db with
      | absent => cases foc <;> simp [stepKey] at hstep
      | present co =>
        cases co with
        | unparsable => cases foc <;> simp [stepKey] at hstep
        | parses l =>
          cases foc <;>
            · simp [stepKey] at hstep
              subst hstep
              exact selInv_of_parses (by simp) _
    · cases foc <;> simp [stepKey, htab] at hstep <;> subst hstep <;> exact fun hd => h hd
  | other =>
    cases foc <;> simp [stepKey] at hstep <;> subst hstep <;> exact fun hd => h hd

lemma reachable_selInv {s : AppState} (hr : Reachable s) : SelInv s := by
  induction hr with
  | init f => exact fun _ => Or.inr rfl
  | render s hr ih => exact selInv_render ih
  | key s k idv now s2 hr hstep ih => exact selInv_step ih hstep

/-- The state refuting claim C3: program start with a backing file that
parses to the empty list. -/
def c3_state : AppState := initialState (DbFile.present (Contents.parses []))

/-- Claim C3, counterexample: the initial state is reachable, its stored
list is empty, yet SelectionCursor is Some 0, not None - fn main selects
Some(0) before the loop regardless of the list contents. -/
theorem c3_counterexample :
    Reachable c3_state ∧
    c3_state.db = DbFile.present (Contents.parses []) ∧
    c3_state.todo_list_state = some 0 ∧
    decide (c3_state.todo_list_state = Option.none) = false :=
  ⟨Reachable.init (DbFile.present (Contents.parses [])), rfl, rfl, rfl⟩

/-- Claim C3 (amended): in every reachable state whose stored list is
empty, SelectionCursor is None or the startup value Some 0; the original
claim's None-only invariant fails exactly at the startup value. -/
theorem c3_empty_list_cursor (s : AppState) (hr : Reachable s)
    (hdb : s.db = DbFile.present (Contents.parses [])) :
    s.todo_list_state = Option.none ∨ s.todo_list_state = some 0 :=
  reachable_selInv hr (Or.inl hdb)

/-- Witness for C3 at the concrete reachable startup state with an empty
stored list. -/
theorem c3_witness :
    (initialState (DbFile.present (Contents.parses []))).db =
      DbFile.present (Contents.parses []) ∧
    ((initialState (DbFile.present (Contents.parses []))).todo_list_state = Option.none ∨
     (initialState (DbFile.present (Contents.parses []))).todo_list_state = some 0) :=
  ⟨rfl, c3_empty_list_cursor (initialState (DbFile.present (Contents.parses [])))
    (Reachable.init (DbFile.present (Contents.parses []))) rfl⟩

end TodoCli
